import Mathlib

/-!
Verification development for the download-orchestration core of
gofetch-audio.

The program under study is a Go program with two relevant source files:

* `internal/downloader` (worker): the `Download` function runs one external
  `yt-dlp` task, classifies its textual output lines into `ProgressMsg`
  values, and sends them over a shared channel; it also performs a
  dependency preflight.
* `internal/tui` (aggregator / scheduler): the Bubble Tea `Model` holds the
  per-item table plus batch counters; `Model.startDownloads` performs the
  initial admissions and `Model.handleProgress` folds each received
  `ProgressMsg` into the table, updates the counters, admits a replacement
  worker on terminal events, and decides global completion.

The embedding below translates those functions into pure Lean functions.
Go `int` is embedded as `Int`, Go `float64` as `Rat` (every progress value
the program manipulates is produced by parsing a short decimal literal such
as `42.5`, which is exact in binary-free rational arithmetic; no float
rounding behaviour is exercised), Go `error` as `Option String`, and Go
slices as `List`.
-/

/-- Mirrors the Go `Status` enumeration of `internal/downloader`
(`StatusPending`, `StatusDownloading`, `StatusConverting`,
`StatusCompleted`, `StatusFailed`).  The spec calls `StatusDownloading`
"Running". -/
inductive Status where
  | pending
  | downloading
  | converting
  | completed
  | failed
  deriving DecidableEq, Repr

/-- Mirrors the Go struct `ProgressMsg` of `internal/downloader`:
`ID int`, `Status Status`, `Progress float64`, `Title string`,
`Error error`.  A freshly constructed Go struct leaves omitted fields at
their zero values (`0`, `""`, `nil`); the constructions below always spell
all five fields out explicitly. -/
structure ProgressMsg where
  id : Int
  status : Status
  progress : Rat
  title : String
  error : Option String
  deriving DecidableEq, Repr

/-! ## Line Classifier

The worker classifies each output line of the external task with three Go
regular expressions:

* `downloadRe`: `\[download\]\s+(\d+\.?\d*)%`
* `destRe`: `Destination:\s+.*/(.+)\.(webm|m4a|mp3|opus|wav)`
* `extractRe`: `\[ExtractAudio\]`

Go's `regexp` package implements leftmost-first (Perl-style backtracking)
match semantics.  The functions below implement those exact semantics for
these three concrete patterns, specialised and proved deterministic by the
following observations:

* For `downloadRe`: after the literal `[download]`, a maximal run of
  whitespace is equivalent to any backtracked shorter run, because the next
  pattern character class (`\d`) never matches a whitespace character.
  Likewise `\d+` and `\d*` may be taken maximal: shortening a digit run
  leaves a digit as the next input character, which matches neither `\.`
  nor `%`, so no shorter run can succeed where the maximal one fails.
* For `destRe`: the greedy `.*` before `/` selects the rightmost `/` whose
  remainder matches `(.+)\.(ext)`, and the greedy `(.+)` selects the
  rightmost `.` whose suffix starts with one of the five extension
  alternatives.  The greedy `\s+` after `Destination:` is equivalent to
  consuming a single whitespace character and letting the slash search run
  over the rest, because the characters released by backtracking `\s+` are
  whitespace and hence never `/`.
-/

/-- Go's RE2 character class `\s`, namely `[\t\n\f\r ]`. -/
def isWS (c : Char) : Bool :=
  c = ' ' || c = '\t' || c = '\n' || c = '\x0c' || c = '\r'

/-- Numeric value of a decimal digit character. -/
def digitVal (c : Char) : Nat := c.toNat - '0'.toNat

/-- Value of a run of decimal digit characters. -/
def digitsToNat (cs : List Char) : Nat :=
  cs.foldl (fun a c => 10 * a + digitVal c) 0

/-- Meaning of `fmt.Sscanf(s, "%f", &progress)` on the strings captured by
`downloadRe`, which have the shape `\d+\.?\d*`: an integer part, optionally
followed by a dot and a (possibly empty) fraction. -/
def parseDecimal (cs : List Char) : Rat :=
  let intPart := cs.takeWhile Char.isDigit
  match cs.dropWhile Char.isDigit with
  | '.' :: frac => (digitsToNat intPart : Rat) + (digitsToNat frac : Rat) / (10 : Rat) ^ frac.length
  | _ => (digitsToNat intPart : Rat)

/-- Match `(\d+\.?\d*)%` at the start of `cs`, returning the captured
number characters. -/
def matchNumPercent (cs : List Char) : Option (List Char) :=
  let ds := cs.takeWhile Char.isDigit
  if ds = [] then none
  else
    match cs.dropWhile Char.isDigit with
    | '%' :: _ => some ds
    | '.' :: r2 =>
      let ds2 := r2.takeWhile Char.isDigit
      match r2.dropWhile Char.isDigit with
      | '%' :: _ => some (ds ++ '.' :: ds2)
      | _ => none
    | _ => none

/-- Match the whole of `downloadRe` starting exactly at `cs`. -/
def matchDownloadAt (cs : List Char) : Option (List Char) :=
  if cs.take 10 = "[download]".toList then
    let rest := cs.drop 10
    if rest.takeWhile isWS = [] then none
    else matchNumPercent (rest.dropWhile isWS)
  else none

/-- Leftmost match of `downloadRe` in a line: the first start position at
which the whole pattern matches, returning the captured number. -/
def findDownload : List Char → Option (List Char)
  | [] => none
  | c :: rest =>
    match matchDownloadAt (c :: rest) with
    | some cap => some cap
    | none => findDownload rest

/-- The five extension alternatives of `destRe`, in the order the
alternation lists them. -/
def audioExts : List (List Char) :=
  ["webm".toList, "m4a".toList, "mp3".toList, "opus".toList, "wav".toList]

/-- Does one of the extension alternatives match as a prefix of `cs`?
(The pattern is not anchored at the end, so trailing text is allowed.) -/
def extMatchesAt (cs : List Char) : Bool :=
  audioExts.any (fun e => cs.take e.length = e)

/-- Capture of `(.+)\.(webm|m4a|mp3|opus|wav)` against `cs` with greedy
semantics: the capture runs up to the rightmost dot whose suffix begins
with one of the extensions, and is nonempty. -/
def titleCapture : List Char → Option (List Char)
  | [] => none
  | c :: rest =>
    match titleCapture rest with
    | some cap => some (c :: cap)
    | none =>
      match rest with
      | '.' :: after => if extMatchesAt after then some [c] else none
      | _ => none

/-- Capture of `.*/(.+)\.(ext)` against `cs`: greedy `.*` selects the
rightmost `/` whose remainder yields a `titleCapture`. -/
def afterSlashCapture : List Char → Option (List Char)
  | [] => none
  | c :: rest =>
    match afterSlashCapture rest with
    | some cap => some cap
    | none => if c = '/' then titleCapture rest else none

/-- Match the whole of `destRe` starting exactly at `cs`, returning the
first capture group (the title). -/
def matchDestAt (cs : List Char) : Option (List Char) :=
  if cs.take 12 = "Destination:".toList then
    match cs.drop 12 with
    | c :: r => if isWS c then afterSlashCapture r else none
    | [] => none
  else none

/-- Leftmost match of `destRe` in a line, returning the captured title. -/
def findDest : List Char → Option (List Char)
  | [] => none
  | c :: rest =>
    match matchDestAt (c :: rest) with
    | some cap => some cap
    | none => findDest rest

/-- `extractRe` just tests for the literal substring `[ExtractAudio]`. -/
def containsExtract : List Char → Bool
  | [] => false
  | c :: rest => decide ((c :: rest).take 14 = "[ExtractAudio]".toList) || containsExtract rest

/-- Go `strings.ReplaceAll(s, "_", " ")` on the captured title. -/
def replaceUnderscores (cs : List Char) : List Char :=
  cs.map (fun c => if c = '_' then ' ' else c)

/-- The body of the worker's stdout drain loop (`Download`, stdout
goroutine) for one line: given the worker's id and its current known
title, produce the list of `ProgressMsg` values sent for this line (in
program order: destination, then percentage, then extraction marker) and
the updated current title. -/
def classifyStdoutLine (id : Int) (title : String) (line : String) :
    List ProgressMsg × String :=
  let cs := line.toList
  let destPart : List ProgressMsg × String :=
    match findDest cs with
    | some cap =>
      let t := String.mk (replaceUnderscores cap)
      ([⟨id, Status.downloading, 0, t, none⟩], t)
    | none => ([], title)
  let msgs1 := destPart.1
  let title1 := destPart.2
  let msgs2 : List ProgressMsg :=
    match findDownload cs with
    | some num => [⟨id, Status.downloading, parseDecimal num, title1, none⟩]
    | none => []
  let msgs3 : List ProgressMsg :=
    if containsExtract cs then [⟨id, Status.converting, 100, title1, none⟩] else []
  (msgs1 ++ msgs2 ++ msgs3, title1)

/-- The body of the worker's stderr drain loop (`Download`, stderr
goroutine) for one line: a destination match only updates the title (no
message is sent), a percentage match sends a progress message, and there
is no extraction check. -/
def classifyStderrLine (id : Int) (title : String) (line : String) :
    List ProgressMsg × String :=
  let cs := line.toList
  let title1 :=
    match findDest cs with
    | some cap => String.mk (replaceUnderscores cap)
    | none => title
  let msgs : List ProgressMsg :=
    match findDownload cs with
    | some num => [⟨id, Status.downloading, parseDecimal num, title1, none⟩]
    | none => []
  (msgs, title1)

/-! ## Worker terminal and initial messages

`Download` (worker) sends, in its own goroutine-local program order:

* first, unconditionally, `ProgressMsg{ID: id, Status: StatusDownloading, Progress: 0}`;
* classifier messages from the two drain goroutines (see above);
* exactly one terminal message: on a pipe/start failure
  `ProgressMsg{ID: id, Status: StatusFailed, Error: err}`, on a non-zero
  exit `ProgressMsg{ID: id, Status: StatusFailed, Title: title, Error: "download failed"}`,
  and on a clean exit `ProgressMsg{ID: id, Status: StatusCompleted, Progress: 100, Title: title}`.

Unmentioned Go struct fields carry their zero values (`Progress 0`,
`Title ""`, `Error nil`). -/

/-- The initial message of `Download`. -/
def startedMsg (id : Int) : ProgressMsg := ⟨id, Status.downloading, 0, "", none⟩

/-- The terminal message of `Download` on a clean task exit. -/
def completedMsg (id : Int) (title : String) : ProgressMsg :=
  ⟨id, Status.completed, 100, title, none⟩

/-- The terminal message of `Download` when `cmd.Wait()` reports a
non-zero exit: note its `Progress` field is the Go zero value `0`. -/
def failedMsg (id : Int) (title : String) : ProgressMsg :=
  ⟨id, Status.failed, 0, title, some "download failed"⟩

/-! ## Event Aggregator (the TUI `Model`) -/

/-- Mirrors the Go struct `Item` of `internal/tui`: `URL`, `Title`,
`Status`, `Progress`, `Error`. -/
structure Item where
  url : String
  title : String
  status : Status
  progress : Rat
  error : Option String
  deriving DecidableEq, Repr

/-- Placeholder used with `List.getD`; every access is guarded by an
index-in-range check mirroring the Go bounds check, so its value is never
observed. -/
def dummyItem : Item := ⟨"", "", Status.pending, 0, none⟩

/-- Mirrors the Go struct `Config` of `internal/downloader`. -/
structure Config where
  outputDir : String
  format : String
  quality : String
  deriving DecidableEq, Repr

/-- Mirrors the state-bearing fields of the Go struct `Model` of
`internal/tui`.  The purely presentational fields (`spinner`, `progress`
bar widget, `width`) and the channel handle `progressCh` are omitted:
no claim depends on them and they do not influence the state transitions
embedded here. -/
structure Model where
  items : List Item
  config : Config
  parallel : Int
  activeCount : Int
  completed : Int
  failed : Int
  quitting : Bool
  done : Bool
  deriving DecidableEq, Repr

/-- Mirrors `NewModel`: one `Pending` item per url, counters zero. -/
def NewModel (urls : List String) (config : Config) (parallel : Int) : Model :=
  { items := urls.map (fun u => ⟨u, "", Status.pending, 0, none⟩)
    config := config
    parallel := parallel
    activeCount := 0
    completed := 0
    failed := 0
    quitting := false
    done := false }

/-- The loop body of `startDownloads`: walk the items in order carrying
the running index `i` and the count `started` of workers launched so far;
stop as soon as `started >= parallel`; launch every `Pending` item met
before that.  Returns the indices launched (the Go code's
`go downloader.Download(i, ...)` calls), in order. -/
def startScan (parallel : Int) : List Item → Nat → Int → List Nat
  | [], _, _ => []
  | it :: rest, i, started =>
    if started ≥ parallel then []
    else if it.status = Status.pending then i :: startScan parallel rest (i + 1) (started + 1)
    else startScan parallel rest (i + 1) started

/-- Mirrors `Model.startDownloads` as written: it launches the workers
returned in the second component and increments `activeCount` once per
launch on its receiver.

Caveat (relevant to claims about reachable states): `startDownloads` has
a pointer receiver but is invoked inside `Model.Init`, whose receiver is
a by-value copy that Bubble Tea discards after `Init` returns; the
returned command closure therefore increments the `activeCount` of that
discarded copy.  The goroutine launches are real side effects, but the
`activeCount` increments never reach the model Bubble Tea keeps.  The
run semantics below (`Reachable`) accounts for this. -/
def Model.startDownloads (m : Model) : Model × List Nat :=
  let launched := startScan m.parallel m.items 0 0
  ({ m with activeCount := m.activeCount + launched.length }, launched)

/-- The item-record update of `handleProgress` (lines `item.Status = msg.Status`
through the `item.Error` guard): status and progress are overwritten
unconditionally, the title only by a non-empty title, the error only by a
non-nil error. -/
def applyMsgToItem (it : Item) (msg : ProgressMsg) : Item :=
  let it1 := { it with status := msg.status, progress := msg.progress }
  let it2 := if msg.title ≠ "" then { it1 with title := msg.title } else it1
  match msg.error with
  | some e => { it2 with error := some e }
  | none => it2

/-- The item table after the record update of `handleProgress` for an
in-range message. -/
def updatedItems (m : Model) (msg : ProgressMsg) : List Item :=
  m.items.set msg.id.toNat (applyMsgToItem (m.items.getD msg.id.toNat dummyItem) msg)

/-- The replacement-admission loop of `handleProgress`: find the first
item that is `Pending` while `activeCount < parallel` (the loop's
`activeCount` is fixed — it is only incremented at the `break`).
Returns the index launched, if any. -/
def scanPending (parallel active : Int) : List Item → Nat → Option Nat
  | [], _ => none
  | it :: rest, i =>
    if it.status = Status.pending ∧ active < parallel then some i
    else scanPending parallel active rest (i + 1)

/-- Whether a message carries a terminal status, mirroring
`msg.Status == StatusCompleted || msg.Status == StatusFailed`. -/
def isTermB (msg : ProgressMsg) : Bool :=
  msg.status == Status.completed || msg.status == Status.failed

/-- Mirrors `Model.handleProgress`, returning the new model together with
the index of the replacement worker it launches (the Go code's
`go downloader.Download(i, ...)` inside the admission loop), if any.

Walkthrough of the Go code: (1) out-of-range ids are dropped; (2) the
item record is updated; (3) on a terminal status, `activeCount` is
decremented, `completed` or `failed` incremented, then the admission loop
runs (incrementing `activeCount` again on a launch), and finally, if
`completed+failed == len(items)`, `done` is set. -/
def Model.handleProgressSpawn (m : Model) (msg : ProgressMsg) : Model × Option Nat :=
  if msg.id < 0 ∨ (m.items.length : Int) ≤ msg.id then (m, none)
  else
    let m1 : Model := { m with items := updatedItems m msg }
    if isTermB msg then
      let m2 : Model :=
        { m1 with
          activeCount := m1.activeCount - 1
          completed := if msg.status = Status.completed then m1.completed + 1 else m1.completed
          failed := if msg.status = Status.completed then m1.failed else m1.failed + 1 }
      let launch := scanPending m2.parallel m2.activeCount m2.items 0
      let m3 : Model :=
        match launch with
        | some _ => { m2 with activeCount := m2.activeCount + 1 }
        | none => m2
      let m4 : Model :=
        if m3.completed + m3.failed = (m3.items.length : Int) then { m3 with done := true } else m3
      (m4, launch)
    else (m1, none)

/-- The state-only part of `Model.handleProgress` (what Bubble Tea keeps). -/
def Model.handleProgress (m : Model) (msg : ProgressMsg) : Model :=
  (m.handleProgressSpawn msg).1

/-- A default config carrying `main.go`'s flag defaults, used for
concrete scenarios (its value never influences the aggregator). -/
def defaultConfig : Config := ⟨".", "mp3", "192"⟩

/-! ## Claim C1: non-zero exit after one ProgressUpdate(10%) -/

/-- The aggregator model for the C1 scenario: a single-item batch.  (The
scenario only concerns the item record, which does not depend on
`activeCount`.) -/
def modelC1 : Model := NewModel ["https://example.invalid/v"] defaultConfig 1

/-- The event sequence the worker produces in the C1 scenario, exactly as
`Download` sends it: the initial `Started` message, one classifier
progress message for a `[download]  10% ...` line (`Progress 10`,
title still unknown), and — because `cmd.Wait()` returns an error — the
terminal failure message `ProgressMsg{ID, StatusFailed, Title: title,
Error: "download failed"}`, whose `Progress` field is the Go zero
value `0`. -/
def eventsC1 : List ProgressMsg :=
  [startedMsg 0, ⟨0, Status.downloading, 10, "", none⟩, failedMsg 0 ""]

/-- The aggregator state after folding the C1 events. -/
def finalC1 : Model := eventsC1.foldl Model.handleProgress modelC1

/-- A concrete state for the C2 witness: one item already `Running`, one
worker active, nothing pending. -/
def modelC2W : Model :=
  { items := [⟨"u", "", Status.downloading, 0, none⟩]
    config := defaultConfig
    parallel := 1
    activeCount := 1
    completed := 0
    failed := 0
    quitting := false
    done := false }

/-- The C6 scenario state: items `[A, B]`, `P = 1`, `A` running (its
`Started` event has been applied), `B` pending. -/
def modelC6W : Model :=
  { items := [⟨"a", "", Status.downloading, 50, none⟩, ⟨"b", "", Status.pending, 0, none⟩]
    config := defaultConfig
    parallel := 1
    activeCount := 1
    completed := 0
    failed := 0
    quitting := false
    done := false }

/-! ## Worker emission orders and the system step relation

`Download` sends its messages from three concurrent strands: the main
strand (which sends `Started`, then waits on `cmd.Wait()` and sends the
terminal message), the stdout drain goroutine and the stderr drain
goroutine.  The code establishes only these happens-before edges between
sends: program order inside each strand, and the fact that both
goroutines are spawned after `Started` is sent.  In particular the drain
goroutines are never joined (no `sync.WaitGroup`), so `cmd.Wait()` can
return — and the terminal message be sent — while a goroutine still has
scanned lines to send; the channel is buffered (capacity 100), so none
of these sends block.  The set of possible channel orders for one worker
is therefore: `Started` first, followed by any interleaving of the
stdout sends, the stderr sends, and the one-element terminal sequence.

The drain goroutines' sends are abstracted by their fixed shape: each
carries the worker's id and status `Downloading` or `Converting` (see
`classifyStdoutLine` / `classifyStderrLine`; the `Progress` and `Title`
payloads depend on the racy shared `title` variable and on the external
tool's output, and are left unconstrained).  This set over-approximates
the payloads but captures exactly the possible id/status/order
behaviour. -/

/-- The possible channel orders of the sends of two concurrent strands. -/
inductive Interleave : List ProgressMsg → List ProgressMsg → List ProgressMsg → Prop
  | nil : Interleave [] [] []
  | left (x : ProgressMsg) (xs ys zs : List ProgressMsg) :
      Interleave xs ys zs → Interleave (x :: xs) ys (x :: zs)
  | right (y : ProgressMsg) (xs ys zs : List ProgressMsg) :
      Interleave xs ys zs → Interleave xs (y :: ys) (y :: zs)

/-- Shape of a drain-goroutine send of worker `id`: the classifier only
ever emits `Downloading` or `Converting` messages with that id. -/
def isMidB (id : Int) (e : ProgressMsg) : Bool :=
  e.id == id && (e.status == Status.downloading || e.status == Status.converting)

/-- The possible complete send sequences of one `Download` call for item
`id`, as observed on the shared channel (see the section comment). -/
def WorkerTrace (id : Int) (evs : List ProgressMsg) : Prop :=
  ∃ outs errs term mix2 mix3,
    (∀ e ∈ outs, isMidB id e = true) ∧
    (∀ e ∈ errs, isMidB id e = true) ∧
    term.id = id ∧ isTermB term = true ∧
    Interleave outs errs mix2 ∧
    Interleave mix2 [term] mix3 ∧
    evs = startedMsg id :: mix3

/-- Number of terminal messages in a list. -/
def termCount (evs : List ProgressMsg) : Nat := evs.countP isTermB

/-- An in-flight worker: the Go loop index it was launched with and the
messages it has not yet delivered to the aggregator. -/
structure Worker where
  idx : Nat
  remaining : List ProgressMsg
  deriving DecidableEq, Repr

/-- A system state: the aggregator model Bubble Tea holds, plus the
launched workers with their undelivered messages. -/
structure Sys where
  model : Model
  workers : List Worker
  deriving DecidableEq, Repr

/-- Reachable system states of a run over `urls` with concurrency flag
`p`.

`init`: Bubble Tea stores the model returned by `NewModel` and runs
`Init`, whose `startDownloads` command launches one goroutine per index
in `startDownloads.2`.  The `activeCount` increments of `startDownloads`
are applied to the by-value receiver copy of `Init` (the method has a
pointer receiver, but the closure captures the address of `Init`'s local
copy, which Bubble Tea discards), so the stored model still has
`activeCount = 0`: the init state's model is `NewModel` itself.  Each
launched worker gets some send sequence permitted by `WorkerTrace`.

`deliverNone` / `deliverLaunch`: the aggregator consumes the next
undelivered message of some worker (the channel serialises sends; across
strands any order is possible, which picking an arbitrary worker
models), as long as the program has not quit (`done = false`); the
model steps by `handleProgress`, and when the admission loop launches a
replacement `go Download(j, ...)`, a new worker for `j` is appended with
some permitted send sequence. -/
inductive Reachable (urls : List String) (config : Config) (p : Int) : Sys → Prop
  | init (ws : List Worker)
      (hw : List.Forall₂ (fun (i : Nat) (w : Worker) =>
          w.idx = i ∧ WorkerTrace (i : Int) w.remaining)
        ((NewModel urls config p).startDownloads.2) ws) :
      Reachable urls config p ⟨NewModel urls config p, ws⟩
  | deliverNone (s : Sys) (l₁ l₂ : List Worker) (w : Worker) (e : ProgressMsg)
      (rest : List ProgressMsg)
      (hs : Reachable urls config p s)
      (hw : s.workers = l₁ ++ w :: l₂)
      (hr : w.remaining = e :: rest)
      (hdone : s.model.done = false)
      (hl : (s.model.handleProgressSpawn e).2 = none) :
      Reachable urls config p
        ⟨(s.model.handleProgressSpawn e).1, l₁ ++ { w with remaining := rest } :: l₂⟩
  | deliverLaunch (s : Sys) (l₁ l₂ : List Worker) (w : Worker) (e : ProgressMsg)
      (rest tr : List ProgressMsg) (j : Nat)
      (hs : Reachable urls config p s)
      (hw : s.workers = l₁ ++ w :: l₂)
      (hr : w.remaining = e :: rest)
      (hdone : s.model.done = false)
      (hl : (s.model.handleProgressSpawn e).2 = some j)
      (htr : WorkerTrace (j : Int) tr) :
      Reachable urls config p
        ⟨(s.model.handleProgressSpawn e).1,
          (l₁ ++ { w with remaining := rest } :: l₂) ++ [⟨j, tr⟩]⟩

/-- Terminal messages still undelivered, summed over all workers. -/
def sysTermPending (s : Sys) : Nat :=
  (s.workers.map (fun w => termCount w.remaining)).sum

/-- Number of items whose status is `Running` (`Downloading`) or
`Converting`. -/
def countRunningConverting (m : Model) : Nat :=
  (m.items.filter
    (fun it => it.status == Status.downloading || it.status == Status.converting)).length

/-- Number of workers launched at startup. -/
def initialLaunches (urls : List String) (config : Config) (p : Int) : Nat :=
  ((NewModel urls config p).startDownloads.2).length

/-- The run used for the concrete reachable states: one url, `P = 1`,
and the single worker's send sequence `[Started, Completed]`. -/
def traceB : List ProgressMsg := [startedMsg 0, completedMsg 0 ""]

/-- The startup state of the one-item run. -/
def sysA : Sys := ⟨NewModel ["u"] defaultConfig 1, [⟨0, traceB⟩]⟩

/-- The state after the worker's `Started` message is applied: its item
is `Running`, the `Completed` message still undelivered. -/
def sysB : Sys :=
  ⟨((NewModel ["u"] defaultConfig 1).handleProgressSpawn (startedMsg 0)).1,
    [⟨0, [completedMsg 0 ""]⟩]⟩

/-! ## Claims C4 and C5: per-item status paths and channel ordering -/

/-- The successive aggregator states while a list of messages is applied
(initial state included). -/
def statusTrajectory (m : Model) (i : Nat) (evs : List ProgressMsg) : List Status :=
  (List.scanl Model.handleProgress m evs).map (fun s => (s.items.getD i dummyItem).status)

/-- Modelled from the spec: the per-item state-machine edges of §4.4
(`Pending → Running`, `Running → Converting | Completed | Failed`,
`Converting → Completed | Failed`). -/
def specEdge : Status → Status → Bool
  | Status.pending, Status.downloading => true
  | Status.downloading, Status.converting => true
  | Status.downloading, Status.completed => true
  | Status.downloading, Status.failed => true
  | Status.converting, Status.completed => true
  | Status.converting, Status.failed => true
  | _, _ => false

/-- Collapse consecutive repeats (progress updates rewrite the same
status, which is not a state change). -/
def dedupConsec : List Status → List Status
  | [] => []
  | [s] => [s]
  | a :: b :: r => if a = b then dedupConsec (b :: r) else a :: dedupConsec (b :: r)

/-- Successive elements are joined by machine edges. -/
def chainB : List Status → Bool
  | a :: b :: r => specEdge a b && chainB (b :: r)
  | _ => true

/-- No element occurs twice. -/
def nodupB : List Status → Bool
  | [] => true
  | a :: r => !(r.contains a) && nodupB r

/-- Modelled from the spec (§4.4 and §8): a status sequence is a valid
path through the state machine when, after collapsing consecutive
repeats, successive statuses follow machine edges and no state is
visited twice. -/
def ValidSpecPath (l : List Status) : Prop :=
  chainB (dedupConsec l) = true ∧ nodupB (dedupConsec l) = true

instance validSpecPathDecidable (l : List Status) : Decidable (ValidSpecPath l) :=
  instDecidableAnd

/-- A permitted worker send order in which the stderr strand's progress
message lands between the stdout strand's `Converting` message and the
terminal message. -/
def eventsC4 : List ProgressMsg :=
  [startedMsg 0, ⟨0, Status.converting, 100, "", none⟩,
    ⟨0, Status.downloading, 50, "", none⟩, completedMsg 0 ""]

/-- A permitted worker send order in which the terminal failure message
precedes a stderr progress message: the drain goroutines are not joined
before `cmd.Wait()` returns, so a goroutine that has scanned a line but
not yet sent can deliver after the terminal send (the channel is
buffered, so neither send blocks). -/
def eventsC5 : List ProgressMsg :=
  [startedMsg 0, failedMsg 0 "", ⟨0, Status.downloading, 50, "", none⟩]

/-! ## Theorems -/

/-- Evaluation of the scanned decimal `42.5`. -/
theorem parseDecimal_forty_two_half : parseDecimal ['4', '2', '.', '5'] = 42.5 := by
  have h42 : digitsToNat ['4', '2'] = 42 := by decide
  have h5 : digitsToNat ['5'] = 5 := by decide
  show (digitsToNat ['4', '2'] : Rat) + (digitsToNat ['5'] : Rat) / (10 : Rat) ^ ([('5' : Char)].length) = 42.5
  rw [h42, h5]
  norm_num

/-! ## Basic lemmas about the aggregator's transition -/

/-- The record update keeps the url. -/
theorem applyMsgToItem_url (it : Item) (msg : ProgressMsg) :
    (applyMsgToItem it msg).url = it.url := by
  unfold applyMsgToItem
  split <;> split <;> rfl

/-- The record update installs the message's status. -/
theorem applyMsgToItem_status (it : Item) (msg : ProgressMsg) :
    (applyMsgToItem it msg).status = msg.status := by
  unfold applyMsgToItem
  split <;> split <;> rfl

/-- Unfolding of `handleProgressSpawn` on an in-range non-terminal
message: only the item record changes and nothing is launched. -/
theorem hps_nonterminal (m : Model) (msg : ProgressMsg)
    (h : ¬ (msg.id < 0 ∨ (m.items.length : Int) ≤ msg.id)) (ht : isTermB msg = false) :
    m.handleProgressSpawn msg = ({ m with items := updatedItems m msg }, none) := by
  unfold Model.handleProgressSpawn
  rw [if_neg h]
  simp [ht]

/-- Unfolding of `handleProgressSpawn` on an in-range terminal message. -/
theorem hps_terminal (m : Model) (msg : ProgressMsg)
    (h : ¬ (msg.id < 0 ∨ (m.items.length : Int) ≤ msg.id)) (ht : isTermB msg = true) :
    m.handleProgressSpawn msg =
      (let m2 : Model :=
        { m with
          items := updatedItems m msg
          activeCount := m.activeCount - 1
          completed := if msg.status = Status.completed then m.completed + 1 else m.completed
          failed := if msg.status = Status.completed then m.failed else m.failed + 1 }
      let launch := scanPending m.parallel (m.activeCount - 1) (updatedItems m msg) 0
      let m3 : Model := match launch with
        | some _ => { m2 with activeCount := m2.activeCount + 1 }
        | none => m2
      (if m3.completed + m3.failed = (m3.items.length : Int) then { m3 with done := true }
        else m3, launch)) := by
  unfold Model.handleProgressSpawn
  rw [if_neg h]
  simp [ht]

/-- The admission loop launches nothing when no item is `Pending`. -/
theorem scanPending_none_of_no_pending (p a : Int) :
    ∀ (l : List Item) (i : Nat), (∀ it ∈ l, it.status ≠ Status.pending) →
      scanPending p a l i = none := by
  intro l
  induction l with
  | nil => intro i _; rfl
  | cons it rest ih =>
    intro i h
    unfold scanPending
    rw [if_neg (by
      intro hc
      exact h it (List.mem_cons_self it rest) hc.1)]
    exact ih (i + 1) (fun x hx => h x (List.mem_cons_of_mem it hx))

/-- The admission loop picks the first `Pending` item when the slot test
passes and some `Pending` item exists. -/
theorem scanPending_spec (p a : Int) (h : a < p) :
    ∀ (l : List Item) (i : Nat), (∃ it ∈ l, it.status = Status.pending) →
      ∃ j, scanPending p a l i = some (i + j) ∧ j < l.length ∧
        (l.getD j dummyItem).status = Status.pending ∧
        ∀ t, t < j → (l.getD t dummyItem).status ≠ Status.pending := by
  intro l
  induction l with
  | nil => intro i hex; simp at hex
  | cons it rest ih =>
    intro i hex
    by_cases hp : it.status = Status.pending
    · refine ⟨0, ?_, by simp, by simpa using hp, by omega⟩
      unfold scanPending
      rw [if_pos ⟨hp, h⟩]
      simp
    · have hex' : ∃ x ∈ rest, x.status = Status.pending := by
        obtain ⟨x, hx, hxs⟩ := hex
        rcases List.mem_cons.mp hx with rfl | hx'
        · exact absurd hxs hp
        · exact ⟨x, hx', hxs⟩
      obtain ⟨j, hj1, hj2, hj3, hj4⟩ := ih (i + 1) hex'
      refine ⟨j + 1, ?_, by simpa using Nat.succ_lt_succ hj2, by simpa using hj3, ?_⟩
      · unfold scanPending
        rw [if_neg (fun hc => hp hc.1)]
        rw [hj1]
        congr 1
        omega
      · intro t htj
        cases t with
        | zero => simpa using hp
        | succ t' =>
          have := hj4 t' (by omega)
          simpa using this

/-- Inversion for a successful admission scan: the launched index is in
range of the table. -/
theorem scanPending_some_range (p a : Int) :
    ∀ (l : List Item) (i j : Nat), scanPending p a l i = some j →
      i ≤ j ∧ j < i + l.length := by
  intro l
  induction l with
  | nil => intro i j hc; exact absurd hc (by simp [scanPending])
  | cons it rest ih =>
    intro i j hc
    unfold scanPending at hc
    split at hc
    · cases hc
      simp
    · have := ih (i + 1) j hc
      simp only [List.length_cons]
      omega

/-- The initial admission loop launches at most `parallel` workers. -/
theorem startScan_length_le (p : Int) :
    ∀ (l : List Item) (i : Nat) (st : Int),
      ((startScan p l i st).length : Int) ≤ max 0 (p - st) := by
  intro l
  induction l with
  | nil => intro i st; simp [startScan]
  | cons it rest ih =>
    intro i st
    unfold startScan
    split
    · simp
    · split
      · have := ih (i + 1) (st + 1)
        simp only [List.length_cons]
        push_cast
        omega
      · exact ih (i + 1) st

/-- Every index launched by the initial admission loop is in range. -/
theorem startScan_mem_range (p : Int) :
    ∀ (l : List Item) (i : Nat) (st : Int) (j : Nat), j ∈ startScan p l i st →
      i ≤ j ∧ j < i + l.length := by
  intro l
  induction l with
  | nil => intro i st j hj; simp [startScan] at hj
  | cons it rest ih =>
    intro i st j hj
    unfold startScan at hj
    split at hj
    · simp at hj
    · split at hj
      · rcases List.mem_cons.mp hj with rfl | hj'
        · simp
        · have := ih (i + 1) (st + 1) j hj'
          simp only [List.length_cons]
          omega
      · have := ih (i + 1) st j hj
        simp only [List.length_cons]
        omega

/-! ## Claims about the Line Classifier -/

/-- C7 (confirmed): the Line Classifier maps the line
`"[download]  42.5% of ..."` to a single progress-update message with
percent `42.5` (status `Downloading`), and maps a line matching none of
the known patterns (here the empty line) to no message at all. -/
theorem claim_C7_theorem :
    classifyStdoutLine 0 "" "[download]  42.5% of ..." =
      ([⟨0, Status.downloading, 42.5, "", none⟩], "") ∧
    classifyStdoutLine 0 "" "" = ([], "") := by
  refine ⟨by with_unfolding_all decide, by decide⟩

/-- C8 (confirmed): the destination line `Destination: /out/My_Song.webm`
is captured with the extension stripped (`My_Song`), and the emitted
title-discovery message carries the capture with every underscore
replaced by a space (`My Song`). -/
theorem claim_C8_theorem :
    findDest ("Destination: /out/My_Song.webm".toList) = some ("My_Song".toList) ∧
    String.mk (replaceUnderscores ("My_Song".toList)) = "My Song" ∧
    classifyStdoutLine 0 "" "Destination: /out/My_Song.webm" =
      ([⟨0, Status.downloading, 0, "My Song", none⟩], "My Song") := by
  refine ⟨by decide, by decide, by decide⟩

/-- C9 (confirmed): an event whose index is out of range (negative or at
least the item count) is dropped: the model is returned unchanged — no
item record, no counter and no completion decision is touched — and no
replacement worker is launched. -/
theorem claim_C9_theorem (m : Model) (msg : ProgressMsg)
    (h : msg.id < 0 ∨ (m.items.length : Int) ≤ msg.id) :
    m.handleProgressSpawn msg = (m, none) := by
  unfold Model.handleProgressSpawn
  rw [if_pos h]

/-- Witness for C9: a model with one item drops an event with index 5. -/
theorem claim_C9_witness :
    ((5 : Int) < 0 ∨ (((NewModel ["u"] defaultConfig 1).items.length : Int) ≤ 5)) ∧
    (NewModel ["u"] defaultConfig 1).handleProgressSpawn ⟨5, Status.completed, 100, "", none⟩ =
      (NewModel ["u"] defaultConfig 1, none) :=
  ⟨by decide, claim_C9_theorem _ _ (by decide)⟩

/-- Counterexample to C1 as stated: after the `Failed` terminal event the
item's `progress_percent` is `0`, not its last observed value `10` — the
record update `item.Progress = msg.Progress` copies the `Failed`
message's zero-valued `Progress` field. -/
theorem claim_C1_counterexample :
    (finalC1.items.getD 0 dummyItem).progress = 0 ∧
    ¬ (finalC1.items.getD 0 dummyItem).progress = 10 := by
  refine ⟨by decide, by decide⟩

/-- C1 amended: in the scenario (task exits non-zero after one
`ProgressUpdate(10%)`), the final item status is `Failed` and its error
is non-empty (`"download failed"`), but `progress_percent` is overwritten
with the `Failed` message's zero `Progress` field rather than remaining
at `10`. -/
theorem claim_C1_theorem :
    finalC1.items =
      [⟨"https://example.invalid/v", "", Status.failed, 0, some "download failed"⟩] ∧
    finalC1.failed = 1 := by
  refine ⟨by decide, by decide⟩

/-! ## Claim C10: frame effect of an in-range event -/

/-- Projection facts of `handleProgressSpawn` that hold for every message:
`config`, `parallel` and `quitting` are never written. -/
theorem hps_frame (m : Model) (msg : ProgressMsg) :
    (m.handleProgressSpawn msg).1.config = m.config ∧
    (m.handleProgressSpawn msg).1.parallel = m.parallel ∧
    (m.handleProgressSpawn msg).1.quitting = m.quitting := by
  unfold Model.handleProgressSpawn
  split
  · exact ⟨rfl, rfl, rfl⟩
  · split
    · dsimp only
      cases scanPending m.parallel (m.activeCount - 1) (updatedItems m msg) 0 <;>
        dsimp only <;>
        exact ⟨by simp only [apply_ite Model.config]; rw [ite_self],
          by simp only [apply_ite Model.parallel]; rw [ite_self],
          by simp only [apply_ite Model.quitting]; rw [ite_self]⟩
    · exact ⟨rfl, rfl, rfl⟩

/-- For an in-range message the new item table is `updatedItems`. -/
theorem hps_items (m : Model) (msg : ProgressMsg)
    (h : ¬ (msg.id < 0 ∨ (m.items.length : Int) ≤ msg.id)) :
    (m.handleProgressSpawn msg).1.items = updatedItems m msg := by
  unfold Model.handleProgressSpawn
  rw [if_neg h]
  split
  · dsimp only
    cases scanPending m.parallel (m.activeCount - 1) (updatedItems m msg) 0 <;>
      dsimp only <;> (simp only [apply_ite Model.items]; rw [ite_self])
  · rfl

/-- C10 amended: an in-range event with index `i` leaves every item with
index other than `i` unchanged, leaves item `i`'s URL unchanged, and
leaves `config`, `parallel` and `quitting` unchanged; besides item `i`'s
record it may change only the batch counters (`activeCount`, `completed`,
`failed`) and the completion flag `done`. -/
theorem claim_C10_theorem (m : Model) (msg : ProgressMsg)
    (h0 : 0 ≤ msg.id) (h1 : msg.id < (m.items.length : Int)) :
    (m.handleProgress msg).items.length = m.items.length ∧
    (∀ j, j ≠ msg.id.toNat →
      (m.handleProgress msg).items.getD j dummyItem = m.items.getD j dummyItem) ∧
    ((m.handleProgress msg).items.getD msg.id.toNat dummyItem).url =
      (m.items.getD msg.id.toNat dummyItem).url ∧
    (m.handleProgress msg).config = m.config ∧
    (m.handleProgress msg).parallel = m.parallel ∧
    (m.handleProgress msg).quitting = m.quitting := by
  have hrange : ¬ (msg.id < 0 ∨ (m.items.length : Int) ≤ msg.id) := by omega
  have hitems : (m.handleProgress msg).items = updatedItems m msg := hps_items m msg hrange
  have hlt : msg.id.toNat < m.items.length := by omega
  refine ⟨?_, ?_, ?_, (hps_frame m msg).1, (hps_frame m msg).2.1, (hps_frame m msg).2.2⟩
  · rw [hitems]
    simp [updatedItems]
  · intro j hj
    rw [hitems]
    unfold updatedItems
    unfold List.getD
    simp only [List.get?_eq_getElem?]
    rw [List.getElem?_set_ne (by omega)]
  · rw [hitems]
    unfold updatedItems
    unfold List.getD
    simp only [List.get?_eq_getElem?]
    rw [List.getElem?_set_self hlt]
    simp only [Option.getD_some]
    rw [applyMsgToItem_url]

/-- For an in-range terminal message, the launched replacement is the
result of the admission scan over the updated table with the decremented
`activeCount`. -/
theorem hps_terminal_launch (m : Model) (msg : ProgressMsg)
    (h : ¬ (msg.id < 0 ∨ (m.items.length : Int) ≤ msg.id)) (ht : isTermB msg = true) :
    (m.handleProgressSpawn msg).2 =
      scanPending m.parallel (m.activeCount - 1) (updatedItems m msg) 0 := by
  rw [hps_terminal m msg h ht]

/-- For an in-range terminal message, `activeCount` is decremented, and
restored by one when a replacement is launched. -/
theorem hps_terminal_active (m : Model) (msg : ProgressMsg)
    (h : ¬ (msg.id < 0 ∨ (m.items.length : Int) ≤ msg.id)) (ht : isTermB msg = true) :
    ((m.handleProgressSpawn msg).2 = none →
      (m.handleProgressSpawn msg).1.activeCount = m.activeCount - 1) ∧
    (∀ j, (m.handleProgressSpawn msg).2 = some j →
      (m.handleProgressSpawn msg).1.activeCount = m.activeCount) := by
  rw [hps_terminal m msg h ht]
  dsimp only
  cases scanPending m.parallel (m.activeCount - 1) (updatedItems m msg) 0 <;> dsimp only
  · refine ⟨fun _ => ?_, fun j hj => by cases hj⟩
    simp only [apply_ite Model.activeCount]
    rw [ite_self]
  · refine ⟨fun hc => (by cases hc), fun j _ => ?_⟩
    simp only [apply_ite Model.activeCount]
    rw [ite_self]
    omega

/-- For an in-range terminal message, the `completed`/`failed` counters
are incremented according to the terminal kind. -/
theorem hps_terminal_counters (m : Model) (msg : ProgressMsg)
    (h : ¬ (msg.id < 0 ∨ (m.items.length : Int) ≤ msg.id)) (ht : isTermB msg = true) :
    (m.handleProgressSpawn msg).1.completed =
      (if msg.status = Status.completed then m.completed + 1 else m.completed) ∧
    (m.handleProgressSpawn msg).1.failed =
      (if msg.status = Status.completed then m.failed else m.failed + 1) := by
  rw [hps_terminal m msg h ht]
  dsimp only
  cases scanPending m.parallel (m.activeCount - 1) (updatedItems m msg) 0 <;> dsimp only <;>
    exact ⟨by simp only [apply_ite Model.completed]; rw [ite_self],
      by simp only [apply_ite Model.failed]; rw [ite_self]⟩

/-- A terminal message never parks an item at `Pending`, so a table with
no `Pending` item stays that way. -/
theorem updatedItems_no_pending (m : Model) (msg : ProgressMsg)
    (ht : isTermB msg = true)
    (hnp : ∀ it ∈ m.items, it.status ≠ Status.pending) :
    ∀ it ∈ updatedItems m msg, it.status ≠ Status.pending := by
  intro it hit
  rcases List.mem_or_eq_of_mem_set hit with h' | rfl
  · exact hnp it h'
  · rw [applyMsgToItem_status]
    intro hc
    simp [isTermB, hc] at ht

/-- One in-range terminal step on a table with no `Pending` item:
`activeCount` drops by one (no replacement exists to restore it), the
terminal counters gain one, and the no-`Pending` property persists. -/
theorem handleProgress_terminal_no_pending (m : Model) (msg : ProgressMsg)
    (ht : isTermB msg = true) (h0 : 0 ≤ msg.id) (h1 : msg.id < (m.items.length : Int))
    (hnp : ∀ it ∈ m.items, it.status ≠ Status.pending) :
    (m.handleProgress msg).activeCount = m.activeCount - 1 ∧
    (m.handleProgress msg).completed + (m.handleProgress msg).failed =
      m.completed + m.failed + 1 ∧
    (m.handleProgress msg).items.length = m.items.length ∧
    (∀ it ∈ (m.handleProgress msg).items, it.status ≠ Status.pending) ∧
    (m.handleProgress msg).parallel = m.parallel := by
  have h : ¬ (msg.id < 0 ∨ (m.items.length : Int) ≤ msg.id) := by omega
  have hnp' := updatedItems_no_pending m msg ht hnp
  have hl : (m.handleProgressSpawn msg).2 = none := by
    rw [hps_terminal_launch m msg h ht]
    exact scanPending_none_of_no_pending _ _ _ 0 hnp'
  have hitems : (m.handleProgress msg).items = updatedItems m msg := hps_items m msg h
  refine ⟨(hps_terminal_active m msg h ht).1 hl, ?_, ?_, ?_, (hps_frame m msg).2.1⟩
  · obtain ⟨hc1, hc2⟩ := hps_terminal_counters m msg h ht
    unfold Model.handleProgress
    by_cases hcc : msg.status = Status.completed
    · rw [if_pos hcc] at hc1
      rw [if_pos hcc] at hc2
      omega
    · rw [if_neg hcc] at hc1
      rw [if_neg hcc] at hc2
      omega
  · rw [hitems]
    simp [updatedItems]
  · rw [hitems]
    exact hnp'

/-- C2 amended: the aggregator has no duplicate-delivery guard.
Applying the same in-range terminal event twice (on a table with no
`Pending` item left, so no replacement launch masks the effect)
decrements `activeCount` by two — taking it below zero whenever it was
at most one — and adds two to `completed + failed`, counting the item
twice. -/
theorem claim_C2_theorem (m : Model) (msg : ProgressMsg)
    (ht : isTermB msg = true) (h0 : 0 ≤ msg.id) (h1 : msg.id < (m.items.length : Int))
    (hnp : ∀ it ∈ m.items, it.status ≠ Status.pending) :
    ((m.handleProgress msg).handleProgress msg).activeCount = m.activeCount - 2 ∧
    ((m.handleProgress msg).handleProgress msg).completed +
      ((m.handleProgress msg).handleProgress msg).failed = m.completed + m.failed + 2 := by
  obtain ⟨ha1, hc1, hlen1, hnp1, _⟩ :=
    handleProgress_terminal_no_pending m msg ht h0 h1 hnp
  obtain ⟨ha2, hc2, _, _, _⟩ :=
    handleProgress_terminal_no_pending (m.handleProgress msg) msg ht h0 (by omega) hnp1
  constructor
  · omega
  · omega

/-- Witness for C2 amended: duplicating the `Completed` terminal event of
the only item drives `activeCount` from `1` to `-1` and `completed+failed`
to `2` on a one-item batch. -/
theorem claim_C2_witness :
    (isTermB (completedMsg 0 "") = true ∧ (0 : Int) ≤ (completedMsg 0 "").id ∧
      (completedMsg 0 "").id < (modelC2W.items.length : Int) ∧
      (∀ it ∈ modelC2W.items, it.status ≠ Status.pending)) ∧
    ((modelC2W.handleProgress (completedMsg 0 "")).handleProgress
        (completedMsg 0 "")).activeCount = modelC2W.activeCount - 2 ∧
    ((modelC2W.handleProgress (completedMsg 0 "")).handleProgress
        (completedMsg 0 "")).completed +
      ((modelC2W.handleProgress (completedMsg 0 "")).handleProgress
        (completedMsg 0 "")).failed = modelC2W.completed + modelC2W.failed + 2 :=
  ⟨⟨by decide, by decide, by decide, by decide⟩,
    claim_C2_theorem modelC2W (completedMsg 0 "") (by decide) (by decide) (by decide)
      (by decide)⟩

/-! ## Claim C6: FIFO admission of a replacement -/

/-- C6 (confirmed): on an in-range terminal event, if after the record
update some item is still `Pending` and the freed slot passes the
capacity test (`activeCount - 1 < parallel`, which holds in every real
run), the aggregator launches exactly one replacement worker, namely the
`Pending` item with the smallest index, and `activeCount` is restored to
its pre-event value (one decrement, one increment). -/
theorem claim_C6_theorem (m : Model) (msg : ProgressMsg)
    (ht : isTermB msg = true) (h0 : 0 ≤ msg.id) (h1 : msg.id < (m.items.length : Int))
    (hcap : m.activeCount - 1 < m.parallel)
    (hpend : ∃ it ∈ updatedItems m msg, it.status = Status.pending) :
    ∃ j, (m.handleProgressSpawn msg).2 = some j ∧
      j < (updatedItems m msg).length ∧
      ((updatedItems m msg).getD j dummyItem).status = Status.pending ∧
      (∀ t, t < j → ((updatedItems m msg).getD t dummyItem).status ≠ Status.pending) ∧
      (m.handleProgressSpawn msg).1.activeCount = m.activeCount := by
  have h : ¬ (msg.id < 0 ∨ (m.items.length : Int) ≤ msg.id) := by omega
  obtain ⟨j, hj1, hj2, hj3, hj4⟩ :=
    scanPending_spec m.parallel (m.activeCount - 1) hcap (updatedItems m msg) 0 hpend
  have hl : (m.handleProgressSpawn msg).2 = some j := by
    rw [hps_terminal_launch m msg h ht, hj1]
    simp
  exact ⟨j, hl, hj2, hj3, hj4, (hps_terminal_active m msg h ht).2 j hl⟩

/-- Witness for C6: when `A` terminates, `B` (index 1) is admitted. -/
theorem claim_C6_witness :
    (isTermB (completedMsg 0 "A") = true ∧ (0 : Int) ≤ (completedMsg 0 "A").id ∧
      (completedMsg 0 "A").id < (modelC6W.items.length : Int) ∧
      modelC6W.activeCount - 1 < modelC6W.parallel ∧
      (∃ it ∈ updatedItems modelC6W (completedMsg 0 "A"), it.status = Status.pending)) ∧
    (∃ j, (modelC6W.handleProgressSpawn (completedMsg 0 "A")).2 = some j ∧
      j < (updatedItems modelC6W (completedMsg 0 "A")).length ∧
      ((updatedItems modelC6W (completedMsg 0 "A")).getD j dummyItem).status =
        Status.pending ∧
      (∀ t, t < j →
        ((updatedItems modelC6W (completedMsg 0 "A")).getD t dummyItem).status ≠
          Status.pending) ∧
      (modelC6W.handleProgressSpawn (completedMsg 0 "A")).1.activeCount =
        modelC6W.activeCount) :=
  ⟨⟨by decide, by decide, by decide, by decide, by decide⟩,
    claim_C6_theorem modelC6W (completedMsg 0 "A") (by decide) (by decide) (by decide)
      (by decide) (by decide)⟩

/-- An interleaving contains exactly the messages of its two strands. -/
theorem Interleave.countP_eq (q : ProgressMsg → Bool) :
    ∀ {a b c : List ProgressMsg}, Interleave a b c →
      c.countP q = a.countP q + b.countP q := by
  intro a b c h
  induction h with
  | nil => simp
  | left x xs ys zs _ ih => simp [List.countP_cons, ih]; omega
  | right y xs ys zs _ ih => simp [List.countP_cons, ih]; omega

/-- Membership in an interleaving comes from one of the two strands. -/
theorem Interleave.mem_or (x : ProgressMsg) :
    ∀ {a b c : List ProgressMsg}, Interleave a b c → x ∈ c → x ∈ a ∨ x ∈ b := by
  intro a b c h hx
  induction h with
  | nil => cases hx
  | left y xs ys zs _ ih =>
    rcases List.mem_cons.mp hx with rfl | hx'
    · exact Or.inl (List.mem_cons_self _ _)
    · rcases ih hx' with h' | h'
      · exact Or.inl (List.mem_cons_of_mem _ h')
      · exact Or.inr h'
  | right y xs ys zs _ ih =>
    rcases List.mem_cons.mp hx with rfl | hx'
    · exact Or.inr (List.mem_cons_self _ _)
    · rcases ih hx' with h' | h'
      · exact Or.inl h'
      · exact Or.inr (List.mem_cons_of_mem _ h')

/-- A drain-goroutine message is not terminal. -/
theorem isMidB_not_term (id : Int) (e : ProgressMsg) (h : isMidB id e = true) :
    isTermB e = false := by
  simp only [isMidB, Bool.and_eq_true, Bool.or_eq_true, beq_iff_eq] at h
  rcases h.2 with h3 | h3 <;> simp [isTermB, h3]

/-- A complete worker send sequence contains exactly one terminal
message. -/
theorem workerTrace_termCount (id : Int) (evs : List ProgressMsg)
    (h : WorkerTrace id evs) : termCount evs = 1 := by
  obtain ⟨outs, errs, term, mix2, mix3, ho, he, _, hterm, hi2, hi3, heq⟩ := h
  have houts : outs.countP isTermB = 0 := by
    rw [List.countP_eq_zero]
    intro e hmem
    simp [isMidB_not_term id e (ho e hmem)]
  have herrs : errs.countP isTermB = 0 := by
    rw [List.countP_eq_zero]
    intro e hmem
    simp [isMidB_not_term id e (he e hmem)]
  have h2 : mix2.countP isTermB = 0 := by
    rw [hi2.countP_eq isTermB, houts, herrs]
  have h3 : mix3.countP isTermB = 1 := by
    rw [hi3.countP_eq isTermB, h2, List.countP_cons, List.countP_nil, hterm]
    simp
  subst heq
  unfold termCount
  rw [List.countP_cons, h3]
  simp [startedMsg, isTermB]

/-- Every message of a complete worker send sequence carries the
worker's id. -/
theorem workerTrace_ids (id : Int) (evs : List ProgressMsg)
    (h : WorkerTrace id evs) : ∀ e ∈ evs, e.id = id := by
  obtain ⟨outs, errs, term, mix2, mix3, ho, he, hid, _, hi2, hi3, heq⟩ := h
  subst heq
  intro e hmem
  rcases List.mem_cons.mp hmem with rfl | hmem'
  · rfl
  · rcases hi3.mem_or e hmem' with h' | h'
    · rcases hi2.mem_or e h' with h'' | h''
      · have hm := ho e h''
        simp only [isMidB, Bool.and_eq_true, beq_iff_eq] at hm
        exact hm.1
      · have hm := he e h''
        simp only [isMidB, Bool.and_eq_true, beq_iff_eq] at hm
        exact hm.1
    · rw [List.mem_singleton.mp h']
      exact hid

/-- Terminal count of a cons cell. -/
theorem termCount_cons (e : ProgressMsg) (l : List ProgressMsg) :
    termCount (e :: l) = termCount l + (if isTermB e then 1 else 0) := by
  unfold termCount
  rw [List.countP_cons]

/-- A list of workers each holding exactly one undelivered terminal
message contributes its length to the pending-terminal sum. -/
theorem sum_termCount_of_ones :
    ∀ ws : List Worker, (∀ w ∈ ws, termCount w.remaining = 1) →
      (ws.map (fun w => termCount w.remaining)).sum = ws.length := by
  intro ws
  induction ws with
  | nil => intro _; rfl
  | cons w rest ih =>
    intro h
    simp only [List.map_cons, List.sum_cons, List.length_cons,
      h w (List.mem_cons_self w rest), ih (fun x hx => h x (List.mem_cons_of_mem w hx))]
    omega

/-- Unpack the per-worker facts of the initial `Forall₂` pairing. -/
theorem forall₂_worker_mem :
    ∀ {idxs : List Nat} {ws : List Worker},
      List.Forall₂ (fun (i : Nat) (w : Worker) =>
        w.idx = i ∧ WorkerTrace (i : Int) w.remaining) idxs ws →
      ∀ w ∈ ws, w.idx ∈ idxs ∧ WorkerTrace (w.idx : Int) w.remaining := by
  intro idxs ws h
  induction h with
  | nil => intro w hw; cases hw
  | cons hab htail ih =>
    intro w hw
    rcases List.mem_cons.mp hw with rfl | hw'
    · refine ⟨?_, ?_⟩
      · rw [hab.1]
        exact List.mem_cons_self _ _
      · rw [hab.1]
        exact hab.2
    · obtain ⟨h1, h2⟩ := ih w hw'
      exact ⟨List.mem_cons_of_mem _ h1, h2⟩

/-- Master invariant of reachable system states: the stored `parallel`
flag and the table length are constant; the effective `activeCount`
equals the number of undelivered terminal messages minus the number of
initial launches (whose increments were lost on the discarded `Init`
receiver copy), hence is never positive; and every worker targets an
in-range index with all its messages carrying that index. -/
theorem reachable_inv (urls : List String) (config : Config) (p : Int) (s : Sys)
    (hs : Reachable urls config p s) :
    s.model.parallel = p ∧
    s.model.items.length = urls.length ∧
    s.model.activeCount + (initialLaunches urls config p : Int) = (sysTermPending s : Int) ∧
    s.model.activeCount ≤ 0 ∧
    ∀ w ∈ s.workers, w.idx < urls.length ∧ ∀ e ∈ w.remaining, e.id = (w.idx : Int) := by
  induction hs with
  | init ws hw =>
    have honce : ∀ w ∈ ws, termCount w.remaining = 1 := by
      intro w hwmem
      exact workerTrace_termCount _ _ (forall₂_worker_mem hw w hwmem).2
    have hlen : ((NewModel urls config p).startDownloads.2).length = ws.length :=
      hw.length_eq
    refine ⟨rfl, by simp [NewModel], ?_, by simp [NewModel], ?_⟩
    · show (0 : Int) + (initialLaunches urls config p : Int) = _
      unfold initialLaunches sysTermPending
      rw [hlen, sum_termCount_of_ones ws honce]
      omega
    · intro w hwmem
      obtain ⟨hidx, htr⟩ := forall₂_worker_mem hw w hwmem
      refine ⟨?_, workerTrace_ids _ _ htr⟩
      have := startScan_mem_range p (NewModel urls config p).items 0 0 w.idx hidx
      simpa [NewModel] using this.2
  | deliverNone s l₁ l₂ w e rest hs hw hr hdone hl ih =>
    obtain ⟨ihp, ihlen, ihsum, ihact, ihw⟩ := ih
    have hwmem : w ∈ s.workers := by
      rw [hw]
      exact List.mem_append_right l₁ (List.mem_cons_self w l₂)
    obtain ⟨hwidx, hwids⟩ := ihw w hwmem
    have heid : e.id = (w.idx : Int) := hwids e (by rw [hr]; exact List.mem_cons_self _ _)
    have hrange : ¬ (e.id < 0 ∨ (s.model.items.length : Int) ≤ e.id) := by
      rw [heid, ihlen]
      push_neg
      constructor
      · positivity
      · exact_mod_cast hwidx
    have hsum_old : (sysTermPending s : Int) =
        ((l₁.map (fun x => termCount x.remaining)).sum : Int) +
          (termCount rest : Int) + (if isTermB e then (1 : Int) else 0) +
          ((l₂.map (fun x => termCount x.remaining)).sum : Int) := by
      unfold sysTermPending
      rw [hw]
      simp only [List.map_append, List.sum_append, List.map_cons, List.sum_cons, hr,
        termCount_cons]
      push_cast
      split <;> simp <;> omega
    have hsum_new : (sysTermPending
        ⟨(s.model.handleProgressSpawn e).1, l₁ ++ { w with remaining := rest } :: l₂⟩ : Int) =
        ((l₁.map (fun x => termCount x.remaining)).sum : Int) + (termCount rest : Int) +
          ((l₂.map (fun x => termCount x.remaining)).sum : Int) := by
      unfold sysTermPending
      simp only [List.map_append, List.sum_append, List.map_cons, List.sum_cons]
      push_cast
      omega
    have hwfacts : ∀ w' ∈ l₁ ++ { w with remaining := rest } :: l₂,
        w'.idx < urls.length ∧ ∀ e' ∈ w'.remaining, e'.id = (w'.idx : Int) := by
      intro w' hw'
      rcases List.mem_append.mp hw' with h1 | h1
      · exact ihw w' (by rw [hw]; exact List.mem_append_left _ h1)
      · rcases List.mem_cons.mp h1 with rfl | h2
        · refine ⟨hwidx, fun e' he' => hwids e' ?_⟩
          rw [hr]
          exact List.mem_cons_of_mem _ he'
        · exact ihw w' (by rw [hw]; exact List.mem_append_right _ (List.mem_cons_of_mem _ h2))
    by_cases hterm : isTermB e = true
    · have hact := (hps_terminal_active s.model e hrange hterm).1 hl
      refine ⟨?_, ?_, ?_, ?_, hwfacts⟩
      · rw [(hps_frame s.model e).2.1]
        exact ihp
      · rw [hps_items s.model e hrange]
        unfold updatedItems
        rw [List.length_set]
        exact ihlen
      · rw [hact, hsum_new]
        rw [hsum_old, if_pos hterm] at ihsum
        omega
      · rw [hact]
        omega
    · have heq := hps_nonterminal s.model e hrange (by simpa using hterm)
      refine ⟨?_, ?_, ?_, ?_, hwfacts⟩
      · rw [heq]
        exact ihp
      · rw [heq]
        show (updatedItems s.model e).length = urls.length
        unfold updatedItems
        rw [List.length_set]
        exact ihlen
      · have hact' : (s.model.handleProgressSpawn e).1.activeCount = s.model.activeCount := by
          rw [heq]
        rw [hact', hsum_new]
        rw [hsum_old, if_neg (by simpa using hterm)] at ihsum
        omega
      · rw [heq]
        exact ihact
  | deliverLaunch s l₁ l₂ w e rest tr j hs hw hr hdone hl htr ih =>
    obtain ⟨ihp, ihlen, ihsum, ihact, ihw⟩ := ih
    have hwmem : w ∈ s.workers := by
      rw [hw]
      exact List.mem_append_right l₁ (List.mem_cons_self w l₂)
    obtain ⟨hwidx, hwids⟩ := ihw w hwmem
    have heid : e.id = (w.idx : Int) := hwids e (by rw [hr]; exact List.mem_cons_self _ _)
    have hrange : ¬ (e.id < 0 ∨ (s.model.items.length : Int) ≤ e.id) := by
      rw [heid, ihlen]
      push_neg
      constructor
      · positivity
      · exact_mod_cast hwidx
    have hterm : isTermB e = true := by
      by_contra hc
      rw [hps_nonterminal s.model e hrange (by simpa using hc)] at hl
      cases hl
    have hact := (hps_terminal_active s.model e hrange hterm).2 j hl
    have hjlt : j < urls.length := by
      rw [hps_terminal_launch s.model e hrange hterm] at hl
      have := scanPending_some_range s.model.parallel (s.model.activeCount - 1)
        (updatedItems s.model e) 0 j hl
      have hlen' : (updatedItems s.model e).length = urls.length := by
        unfold updatedItems
        rw [List.length_set]
        exact ihlen
      omega
    have hsum_old : (sysTermPending s : Int) =
        ((l₁.map (fun x => termCount x.remaining)).sum : Int) +
          (termCount rest : Int) + 1 +
          ((l₂.map (fun x => termCount x.remaining)).sum : Int) := by
      unfold sysTermPending
      rw [hw]
      simp only [List.map_append, List.sum_append, List.map_cons, List.sum_cons, hr,
        termCount_cons, if_pos hterm]
      push_cast
      omega
    have hsum_new : (sysTermPending
        ⟨(s.model.handleProgressSpawn e).1,
          (l₁ ++ { w with remaining := rest } :: l₂) ++ [⟨j, tr⟩]⟩ : Int) =
        ((l₁.map (fun x => termCount x.remaining)).sum : Int) + (termCount rest : Int) +
          ((l₂.map (fun x => termCount x.remaining)).sum : Int) + 1 := by
      unfold sysTermPending
      simp only [List.map_append, List.sum_append, List.map_cons, List.sum_cons,
        List.map_nil, List.sum_nil, workerTrace_termCount (j : Int) tr htr]
      push_cast
      omega
    refine ⟨?_, ?_, ?_, ?_, ?_⟩
    · rw [(hps_frame s.model e).2.1]
      exact ihp
    · rw [hps_items s.model e hrange]
      unfold updatedItems
      rw [List.length_set]
      exact ihlen
    · rw [hact, hsum_new]
      rw [hsum_old] at ihsum
      omega
    · rw [hact]
      exact ihact
    · intro w' hw'
      rcases List.mem_append.mp hw' with h1 | h1
      · rcases List.mem_append.mp h1 with h2 | h2
        · exact ihw w' (by rw [hw]; exact List.mem_append_left _ h2)
        · rcases List.mem_cons.mp h2 with rfl | h3
          · refine ⟨hwidx, fun e' he' => hwids e' ?_⟩
            rw [hr]
            exact List.mem_cons_of_mem _ he'
          · exact ihw w'
              (by rw [hw]; exact List.mem_append_right _ (List.mem_cons_of_mem _ h3))
      · rw [List.mem_singleton.mp h1]
        exact ⟨hjlt, workerTrace_ids _ _ htr⟩

/-- C3 amended: in every reachable state, `active_count` is at most `P`
(for the spec's `P ≥ 1`); in fact it is never positive — the initial
admissions' increments are applied to a discarded copy of the model — and
it always equals the number of undelivered terminal messages minus the
number of initial launches.  It does not track the number of
`Running`/`Converting` items. -/
theorem claim_C3_theorem (urls : List String) (config : Config) (p : Int) (s : Sys)
    (hp : 1 ≤ p) (hs : Reachable urls config p s) :
    s.model.activeCount ≤ p ∧ s.model.activeCount ≤ 0 ∧
    s.model.activeCount + (initialLaunches urls config p : Int) = (sysTermPending s : Int) := by
  obtain ⟨_, _, hsum, hact, _⟩ := reachable_inv urls config p s hs
  exact ⟨by omega, hact, hsum⟩

/-- `traceB` is a permitted worker send sequence for item 0. -/
theorem traceB_workerTrace : WorkerTrace 0 traceB :=
  ⟨[], [], completedMsg 0 "", [], [completedMsg 0 ""],
    fun e he => absurd he (List.not_mem_nil e),
    fun e he => absurd he (List.not_mem_nil e),
    rfl, by decide,
    Interleave.nil,
    Interleave.right (completedMsg 0 "") [] [] [] Interleave.nil,
    rfl⟩

/-- The startup state is reachable. -/
theorem sysA_reachable : Reachable ["u"] defaultConfig 1 sysA :=
  Reachable.init [⟨0, traceB⟩]
    (by
      have h : (NewModel ["u"] defaultConfig 1).startDownloads.2 = [0] := by decide
      rw [h]
      exact List.Forall₂.cons ⟨rfl, traceB_workerTrace⟩ List.Forall₂.nil)

/-- The post-`Started` state is reachable. -/
theorem sysB_reachable : Reachable ["u"] defaultConfig 1 sysB :=
  Reachable.deliverNone sysA [] [] ⟨0, traceB⟩ (startedMsg 0) [completedMsg 0 ""]
    sysA_reachable rfl rfl rfl (by decide)

/-- Counterexample to C3 as stated: in the reachable state `sysB` the
item is `Running` (`Downloading`), yet `active_count` is `0`, not `1` —
the `activeCount` increments of `startDownloads` happen on the discarded
`Init` receiver copy, so the equality clause of C3 fails on the model
Bubble Tea actually holds. -/
theorem claim_C3_counterexample :
    Reachable ["u"] defaultConfig 1 sysB ∧
    sysB.model.activeCount = 0 ∧
    countRunningConverting sysB.model = 1 ∧
    ¬ sysB.model.activeCount = (countRunningConverting sysB.model : Int) :=
  ⟨sysB_reachable, by decide, by decide, by decide⟩

/-- Witness for C3 amended at the concrete reachable state `sysB`. -/
theorem claim_C3_witness :
    ((1 : Int) ≤ 1) ∧
    (sysB.model.activeCount ≤ 1 ∧ sysB.model.activeCount ≤ 0 ∧
      sysB.model.activeCount + (initialLaunches ["u"] defaultConfig 1 : Int) =
        (sysTermPending sysB : Int)) :=
  ⟨by decide, claim_C3_theorem ["u"] defaultConfig 1 sysB (by decide) sysB_reachable⟩

/-- Counterexample to C2 as stated: from the reachable state `sysB`
(one-item batch, item `Running`), applying the item's `Completed`
terminal event twice drives `active_count` to `-2` (below zero) and
`completed` to `2` on a batch of `1` — the aggregator has no
duplicate-delivery guard. -/
theorem claim_C2_counterexample :
    Reachable ["u"] defaultConfig 1 sysB ∧
    ((sysB.model.handleProgress (completedMsg 0 "")).handleProgress
        (completedMsg 0 "")).activeCount = -2 ∧
    ((sysB.model.handleProgress (completedMsg 0 "")).handleProgress
        (completedMsg 0 "")).completed = 2 ∧
    sysB.model.items.length = 1 :=
  ⟨sysB_reachable, by decide, by decide, by decide⟩

/-- `eventsC4` is a permitted worker send sequence for item 0: the
stdout strand sends the `Converting` message (an `[ExtractAudio]` line),
the stderr strand a `50%` progress message, and the interleaving places
the latter after the former. -/
theorem eventsC4_workerTrace : WorkerTrace 0 eventsC4 :=
  ⟨[⟨0, Status.converting, 100, "", none⟩], [⟨0, Status.downloading, 50, "", none⟩],
    completedMsg 0 "",
    [⟨0, Status.converting, 100, "", none⟩, ⟨0, Status.downloading, 50, "", none⟩],
    [⟨0, Status.converting, 100, "", none⟩, ⟨0, Status.downloading, 50, "", none⟩,
      completedMsg 0 ""],
    by decide, by decide, rfl, by decide,
    Interleave.left _ _ _ _ (Interleave.right _ _ _ _ Interleave.nil),
    Interleave.left _ _ _ _ (Interleave.left _ _ _ _
      (Interleave.right _ _ _ _ Interleave.nil)),
    rfl⟩

/-- Counterexample to C4 as stated: a permitted single-worker run drives
the item through `Pending, Running, Converting, Running, Completed` —
`Running` is visited twice (and `Converting → Running` is not a machine
edge), because the two drain strands are not synchronised. -/
theorem claim_C4_counterexample :
    WorkerTrace 0 eventsC4 ∧
    statusTrajectory (NewModel ["u"] defaultConfig 1) 0 eventsC4 =
      [Status.pending, Status.downloading, Status.converting, Status.downloading,
        Status.completed] ∧
    ¬ ValidSpecPath (statusTrajectory (NewModel ["u"] defaultConfig 1) 0 eventsC4) :=
  ⟨eventsC4_workerTrace, by decide, by decide⟩

/-- C4 amended: for a fresh (`Pending`) in-range item and any permitted
send sequence of its worker, the item's status trajectory under the
aggregator never shows `Completed` or `Failed` before `Running`: any
terminal status occurrence is strictly preceded by a `Running`
(`Downloading`) occurrence.  (The "no state visited twice" half of the
original claim is dropped — see the counterexample.) -/
theorem claim_C4_theorem (m : Model) (i : Nat) (evs : List ProgressMsg)
    (hi : i < m.items.length)
    (hp : (m.items.getD i dummyItem).status = Status.pending)
    (htr : WorkerTrace (i : Int) evs) :
    ∀ k st, (statusTrajectory m i evs).get? k = some st →
      st = Status.completed ∨ st = Status.failed →
      ∃ j, j < k ∧ (statusTrajectory m i evs).get? j = some Status.downloading := by
  obtain ⟨outs, errs, term, mix2, mix3, ho, he2, hid, hterm, hi2, hi3, heq⟩ := htr
  subst heq
  have hRange : ¬ ((startedMsg (i : Int)).id < 0 ∨
      (m.items.length : Int) ≤ (startedMsg (i : Int)).id) := by
    show ¬ ((i : Int) < 0 ∨ (m.items.length : Int) ≤ (i : Int))
    omega
  have hm1 : ((m.handleProgress (startedMsg (i : Int))).items.getD i dummyItem).status =
      Status.downloading := by
    unfold Model.handleProgress
    rw [hps_items m (startedMsg (i : Int)) hRange]
    unfold updatedItems
    have htn : (startedMsg (i : Int)).id.toNat = i := by
      show ((i : Int)).toNat = i
      omega
    rw [htn]
    unfold List.getD
    simp only [List.get?_eq_getElem?]
    rw [List.getElem?_set_self hi]
    simp only [Option.getD_some]
    rw [applyMsgToItem_status]
    rfl
  have htraj : statusTrajectory m i (startedMsg (i : Int) :: mix3) =
      (m.items.getD i dummyItem).status ::
        statusTrajectory (m.handleProgress (startedMsg (i : Int))) i mix3 := by
    unfold statusTrajectory
    rw [List.scanl_cons]
    rfl
  have htraj0 : ∀ (m' : Model) (evs' : List ProgressMsg),
      (statusTrajectory m' i evs').get? 0 = some ((m'.items.getD i dummyItem).status) := by
    intro m' evs'
    cases evs' <;> rfl
  intro k st hk hkt
  rw [htraj] at hk
  match k with
  | 0 =>
    rw [List.get?_cons_zero] at hk
    rw [hp] at hk
    cases hk
    rcases hkt with h' | h' <;> cases h'
  | 1 =>
    rw [List.get?_cons_succ, htraj0, hm1] at hk
    cases hk
    rcases hkt with h' | h' <;> cases h'
  | (k' + 2) =>
    refine ⟨1, by omega, ?_⟩
    rw [htraj, List.get?_cons_succ, htraj0, hm1]

/-- Witness for C4 amended: the fresh one-item model with the
`[Started, Completed]` send sequence. -/
theorem claim_C4_witness :
    (0 < (NewModel ["u"] defaultConfig 1).items.length ∧
      ((NewModel ["u"] defaultConfig 1).items.getD 0 dummyItem).status = Status.pending ∧
      WorkerTrace 0 traceB) ∧
    (∀ k st, (statusTrajectory (NewModel ["u"] defaultConfig 1) 0 traceB).get? k = some st →
      st = Status.completed ∨ st = Status.failed →
      ∃ j, j < k ∧
        (statusTrajectory (NewModel ["u"] defaultConfig 1) 0 traceB).get? j =
          some Status.downloading) :=
  ⟨⟨by decide, by decide, traceB_workerTrace⟩,
    claim_C4_theorem (NewModel ["u"] defaultConfig 1) 0 traceB (by decide) (by decide)
      traceB_workerTrace⟩

/-- `eventsC5` is a permitted worker send sequence for item 0. -/
theorem eventsC5_workerTrace : WorkerTrace 0 eventsC5 :=
  ⟨[], [⟨0, Status.downloading, 50, "", none⟩], failedMsg 0 "",
    [⟨0, Status.downloading, 50, "", none⟩],
    [failedMsg 0 "", ⟨0, Status.downloading, 50, "", none⟩],
    by decide, by decide, rfl, by decide,
    Interleave.right _ _ _ _ Interleave.nil,
    Interleave.right _ _ _ _ (Interleave.left _ _ _ _ Interleave.nil),
    rfl⟩

/-- Counterexample to C5 as stated: a permitted channel order in which a
progress message of the item appears after its terminal message. -/
theorem claim_C5_counterexample :
    WorkerTrace 0 eventsC5 ∧
    eventsC5.get? 1 = some (failedMsg 0 "") ∧
    isTermB (failedMsg 0 "") = true ∧
    eventsC5.get? 2 = some ⟨0, Status.downloading, 50, "", none⟩ ∧
    isTermB ⟨0, Status.downloading, 50, "", none⟩ = false :=
  ⟨eventsC5_workerTrace, by decide, by decide, by decide, by decide⟩

/-- C5 amended: what the worker does guarantee about its channel order —
the `Started` message comes first, exactly one terminal message is sent,
and every message carries the worker's id.  The terminal message may
precede progress messages of the drain goroutines (see the
counterexample), because the goroutines are not joined before the
terminal send. -/
theorem claim_C5_theorem (id : Int) (evs : List ProgressMsg) (htr : WorkerTrace id evs) :
    evs.head? = some (startedMsg id) ∧ termCount evs = 1 ∧ ∀ e ∈ evs, e.id = id := by
  refine ⟨?_, workerTrace_termCount id evs htr, workerTrace_ids id evs htr⟩
  obtain ⟨_, _, _, _, mix3, _, _, _, _, _, _, heq⟩ := htr
  rw [heq]
  rfl

/-- Witness for C5 amended at the `[Started, Completed]` sequence. -/
theorem claim_C5_witness :
    WorkerTrace 0 traceB ∧
    (traceB.head? = some (startedMsg 0) ∧ termCount traceB = 1 ∧
      ∀ e ∈ traceB, e.id = 0) :=
  ⟨traceB_workerTrace, claim_C5_theorem 0 traceB traceB_workerTrace⟩

/-- Counterexample to C10 as stated: an in-range terminal event that
completes the batch also flips the completion flag `done`, which is
neither part of item `i`'s record nor one of the batch counters the
claim lists. -/
theorem claim_C10_counterexample :
    (modelC2W.handleProgress (completedMsg 0 "")).done = true ∧
    modelC2W.done = false :=
  ⟨by decide, by decide⟩

/-- Witness for C10 amended: the in-range `Completed` event of the
one-item model. -/
theorem claim_C10_witness :
    ((0 : Int) ≤ (completedMsg 0 "").id ∧
      (completedMsg 0 "").id < (modelC2W.items.length : Int)) ∧
    ((modelC2W.handleProgress (completedMsg 0 "")).items.length =
        modelC2W.items.length ∧
      (∀ j, j ≠ (completedMsg 0 "").id.toNat →
        (modelC2W.handleProgress (completedMsg 0 "")).items.getD j dummyItem =
          modelC2W.items.getD j dummyItem) ∧
      ((modelC2W.handleProgress (completedMsg 0 "")).items.getD
          (completedMsg 0 "").id.toNat dummyItem).url =
        (modelC2W.items.getD (completedMsg 0 "").id.toNat dummyItem).url ∧
      (modelC2W.handleProgress (completedMsg 0 "")).config = modelC2W.config ∧
      (modelC2W.handleProgress (completedMsg 0 "")).parallel = modelC2W.parallel ∧
      (modelC2W.handleProgress (completedMsg 0 "")).quitting = modelC2W.quitting) :=
  ⟨⟨by decide, by decide⟩,
    claim_C10_theorem modelC2W (completedMsg 0 "") (by decide) (by decide)⟩
